import Mathlib

/-!
Verification of the `mcp-completions-stateless` chat-completion proxy
(`src/packages/mcp-completions-stateless/mcp-completions-stateless.ts`).

The development shallowly embeds the parts of `fetchProxy` that the
claims are about: request validation, MCP tool discovery and synthetic
name mapping, the SSE tool-call delta accumulator, the multi-round
completion loop with its token budget, the dual-mode response emitter,
and the tools/call dispatch with its session-expiry handling.  Network
interactions (the upstream LLM, the MCP servers, `new URL().hostname`)
are passed in as oracle parameters; everything else is translated from
the source.
-/

namespace MCPCompletions

/-! ### Association-list model of the JavaScript `Map`

`mcpSessions` (line 86), `toolMap` (line 506) and `toolCallBuffer`
(line 676) are JavaScript `Map`s.  We model a `Map` as an
insertion-ordered association list with unique keys: `mapSet`
overwrites the first binding in place (as `Map.set` does on the unique
binding), `mapGet` returns the first binding, `mapDelete` removes all
bindings of the key (on the unique-key maps the code builds this is
exactly `Map.delete`). -/

def mapGet {K V : Type} [BEq K] : List (K × V) → K → Option V
  | [], _ => none
  | p :: ps, k => if p.1 == k then some p.2 else mapGet ps k

def mapSet {K V : Type} [BEq K] : List (K × V) → K → V → List (K × V)
  | [], k, v => [(k, v)]
  | p :: ps, k, v => if p.1 == k then (k, v) :: ps else p :: mapSet ps k v

def mapDelete {K V : Type} [BEq K] (m : List (K × V)) (k : K) : List (K × V) :=
  m.filter (fun p => p.1 != k)

/-- Concatenation of a list of strings, as the JS `+=` accumulation does. -/
def strJoin : List String → String
  | [] => ""
  | s :: l => s ++ strJoin l

/-- Character-wise model of `name.startsWith(p)` on JS strings. -/
def startsWithStr (s p : String) : Bool :=
  s.data.take p.data.length == p.data

/-! ### JSON runtime values and JS truthiness

`require_approval` is typed `"never"` in TypeScript but the runtime
check `(x.require_approval || "never") !== "never"` (line 449) sees an
arbitrary JSON value, so we model JSON primitive values and JS
truthiness. -/

inductive JsonPrim where
  | null : JsonPrim
  | bool (b : Bool) : JsonPrim
  | num (n : Int) : JsonPrim
  | str (s : String) : JsonPrim
deriving DecidableEq

def jsTruthy : JsonPrim → Bool
  | .null => false
  | .bool b => b
  | .num n => n != 0
  | .str s => s != ""

/-! ### Request tool specs and validation (lines 1-7, 37-55, 445-463) -/

structure MCPToolSpec where
  server_url : Option String
  authorization : Option String
  allowed_tools : Option (List String)
  require_approval : Option JsonPrim
deriving DecidableEq

inductive RequestTool where
  | function (name : String) : RequestTool
  | mcp (spec : MCPToolSpec) : RequestTool
  | url_context : RequestTool
deriving DecidableEq

/-- Line 449: `((x.require_approval || "never") !== "never") || !x.server_url`.
`x.require_approval || "never"` yields `"never"` for every falsy value
(absent, `null`, `""`, `0`, `false`); the strict comparison then only
flags truthy values different from the string `"never"`.
`!x.server_url` is true for a missing or empty `server_url`. -/
def isInvalidMcpSpec (x : MCPToolSpec) : Bool :=
  (match x.require_approval with
   | none => false
   | some v => jsTruthy v && v != JsonPrim.str "never") ||
  (match x.server_url with
   | none => true
   | some s => s == "")

structure ErrorBody where
  message : String
  type : String
deriving DecidableEq

def invalidMcpToolsBody : ErrorBody :=
  { message := "Invalid MCP tools", type := "invalid_request_error" }

/-- Line 446: `body.tools.filter((x) => x.type === "mcp")`. -/
def mcpSpecsOf (tools : List RequestTool) : List MCPToolSpec :=
  tools.filterMap (fun t =>
    match t with
    | RequestTool.mcp s => some s
    | _ => none)

/-- Lines 445-463: if any MCP tool spec is invalid the whole request is
rejected with HTTP 400 and the `Invalid MCP tools` error body, before
any upstream or MCP network call is attempted (the validation sits
before the `try` block that performs all network work).  `none` means
validation passed and `fetchProxy` proceeds. -/
def validateMcpTools (tools : Option (List RequestTool)) : Option (Nat × ErrorBody) :=
  match tools with
  | none => none
  | some ts =>
    if ((mcpSpecsOf ts).filter isInvalidMcpSpec).length > 0 then
      some (400, invalidMcpToolsBody)
    else
      none

/-! ### MCP sessions, synthetic names and tool discovery (lines 57-68, 86, 140-203, 504-587) -/

structure MCPTool where
  name : String
  description : Option String
  inputSchema : Option JsonPrim
deriving DecidableEq

structure MCPSession where
  sessionId : Option String
  initialized : Bool
  tools : List MCPTool
deriving DecidableEq

/-- Result of a successful `initializeMCPSession` call (lines 140-203):
the `Mcp-Session-Id` header (if any) and the `tools/list` array.  The
handshake itself is network interaction and is supplied as an oracle. -/
structure InitResult where
  sessionId : Option String
  tools : List MCPTool
deriving DecidableEq

/-- Lines 528 and 856: `sessionData.sessionId || undefined` turns an
absent or empty header into `undefined`. -/
def normalizeSessionId : Option String → Option String
  | none => none
  | some s => if s == "" then none else some s

structure ToolMapEntry where
  serverUrl : String
  originalName : String
  authorization : Option String
deriving DecidableEq

structure TransformedTool where
  name : String
  description : String
  parameters : Option JsonPrim
deriving DecidableEq

/-- Line 551: `hostname.replaceAll(".", "-")`.  The pattern and the
replacement are single characters, so `replaceAll` is the character map
that turns every `.` into `-`. -/
def dashHostname (h : String) : String :=
  String.mk (h.data.map (fun c => if c = '.' then '-' else c))

/-- Lines 551-553: the synthetic function name
`mcp_tool_<dashed-hostname>_<original-name>`. -/
def functionName (hostname originalName : String) : String :=
  "mcp_tool_" ++ dashHostname hostname ++ "_" ++ originalName

/-- JS `a || b` on an optional string. -/
def jsOr (a : Option String) (b : String) : String :=
  match a with
  | none => b
  | some s => if s == "" then b else s

def serverUrlOf (spec : MCPToolSpec) : String :=
  spec.server_url.getD ""

/-- Lines 545-549: skip the tool when `allowed_tools.tool_names` is set
and does not contain the tool's name.  A present-but-empty list is
truthy in JS and filters out every tool. -/
def allowedTool (spec : MCPToolSpec) (t : MCPTool) : Bool :=
  match spec.allowed_tools with
  | none => true
  | some names => names.contains t.name

/-- Lines 544-570: for each discovered tool that passes the allow-list,
the synthetic name, the reverse-map entry recorded by `toolMap.set`,
and the transformed function tool pushed to `transformedTools`. -/
def specToolPairs (hostname : String) (spec : MCPToolSpec) (tools : List MCPTool) :
    List (String × ToolMapEntry × TransformedTool) :=
  (tools.filter (allowedTool spec)).map (fun t =>
    (functionName hostname t.name,
     ({ serverUrl := serverUrlOf spec, originalName := t.name,
        authorization := spec.authorization } : ToolMapEntry),
     ({ name := functionName hostname t.name,
        description := jsOr t.description t.name ++ " (via MCP server: " ++ hostname ++ ")",
        parameters := t.inputSchema } : TransformedTool)))

/-- State threaded through the per-spec discovery loop of lines 516-571.
`sessions` models the module-level `mcpSessions` map; `contributions`
records every `toolMap.set` call in order (so that the final `toolMap`
is their left fold); `handshakes` records each server URL for which the
3-step `initializeMCPSession` handshake was actually performed. -/
structure DiscoverState where
  sessions : List (String × MCPSession)
  toolMap : List (String × ToolMapEntry)
  contributions : List (String × ToolMapEntry)
  transformedTools : List TransformedTool
  handshakes : List String
deriving DecidableEq

def recordSpec (hostnameOf : String → String) (st : DiscoverState) (spec : MCPToolSpec)
    (sessions' : List (String × MCPSession)) (handshakes' : List String)
    (session : MCPSession) : DiscoverState :=
  let hostname := hostnameOf (serverUrlOf spec)
  let pairs := specToolPairs hostname spec session.tools
  { sessions := sessions'
    toolMap := pairs.foldl (fun m p => mapSet m p.1 p.2.1) st.toolMap
    contributions := st.contributions ++ pairs.map (fun p => (p.1, p.2.1))
    transformedTools := st.transformedTools ++ pairs.map (fun p => p.2.2)
    handshakes := handshakes' }

/-- Lines 516-571 for one MCP tool spec.  `hostnameOf` is the oracle for
`new URL(url).hostname`; `initOracle` is the oracle for
`initializeMCPSession` (`Except.error` models the thrown exception,
which line 533 catches with `continue`, skipping that server). -/
def discoverSpec (hostnameOf : String → String)
    (initOracle : String → Except String InitResult)
    (st : DiscoverState) (spec : MCPToolSpec) : DiscoverState :=
  let sessionKey := serverUrlOf spec
  match mapGet st.sessions sessionKey with
  | some s =>
    if s.initialized then
      recordSpec hostnameOf st spec st.sessions st.handshakes s
    else
      match initOracle sessionKey with
      | Except.error _ => st
      | Except.ok r =>
        let s' : MCPSession :=
          { sessionId := normalizeSessionId r.sessionId, initialized := true, tools := r.tools }
        recordSpec hostnameOf st spec (mapSet st.sessions sessionKey s')
          (st.handshakes ++ [sessionKey]) s'
  | none =>
    match initOracle sessionKey with
    | Except.error _ => st
    | Except.ok r =>
      let s' : MCPSession :=
        { sessionId := normalizeSessionId r.sessionId, initialized := true, tools := r.tools }
      recordSpec hostnameOf st spec (mapSet st.sessions sessionKey s')
        (st.handshakes ++ [sessionKey]) s'

/-- One request's tool-discovery phase: the per-spec loop of lines
516-571, starting from the current cross-request `mcpSessions` map and
a fresh (empty) `toolMap`. -/
def discoverAll (hostnameOf : String → String)
    (initOracle : String → Except String InitResult)
    (sessions : List (String × MCPSession)) (specs : List MCPToolSpec) : DiscoverState :=
  specs.foldl (discoverSpec hostnameOf initOracle)
    { sessions := sessions, toolMap := [], contributions := [], transformedTools := [],
      handshakes := [] }

/-! ### Tool-call delta accumulator (lines 670-746) -/

structure DeltaFunction where
  name : Option String
  arguments : Option String
deriving DecidableEq

structure ToolCallDelta where
  index : Nat
  id : Option String
  function : Option DeltaFunction
deriving DecidableEq

structure BufferedToolCall where
  id : String
  name : String
  arguments : String
deriving DecidableEq

def emptyBufferedToolCall : BufferedToolCall :=
  { id := "", name := "", arguments := "" }

/-- Lines 739-744: `if (toolCall.id) bufferedCall.id = toolCall.id;`
(a truthy id overwrites the stored one), then string-append a truthy
`function.name` and a truthy `function.arguments`. -/
def applyToolCallDelta (b : BufferedToolCall) (d : ToolCallDelta) : BufferedToolCall :=
  let b1 :=
    match d.id with
    | some i => if i != "" then { b with id := i } else b
    | none => b
  match d.function with
  | none => b1
  | some f =>
    let b2 :=
      match f.name with
      | some n => if n != "" then { b1 with name := b1.name ++ n } else b1
      | none => b1
    match f.arguments with
    | some a => if a != "" then { b2 with arguments := b2.arguments ++ a } else b2
    | none => b2

/-- Lines 728-746: fold a stream of `delta.tool_calls` elements (in SSE
arrival order) into `toolCallBuffer`, keyed by `tool_calls[].index`,
creating an empty entry on first sight of an index. -/
def foldToolCallDeltas (ds : List ToolCallDelta) : List (Nat × BufferedToolCall) :=
  ds.foldl (fun buf d =>
    mapSet buf d.index (applyToolCallDelta ((mapGet buf d.index).getD emptyBufferedToolCall) d)) []

/-! Specification-side characterizations of the accumulator, used to
state what the fold computes: the contribution each delta makes to the
`id`, `name` and `arguments` fields of its index's buffer entry. -/

def deltaIdContribution (d : ToolCallDelta) : Option String :=
  match d.id with
  | some i => if i != "" then some i else none
  | none => none

def deltaNameContribution (d : ToolCallDelta) : String :=
  match d.function with
  | some f =>
    (match f.name with
     | some n => n
     | none => "")
  | none => ""

def deltaArgsContribution (d : ToolCallDelta) : String :=
  match d.function with
  | some f =>
    (match f.arguments with
     | some a => a
     | none => "")
  | none => ""

/-- Specification-side description of one buffer entry after the fold:
the `id` is the LAST truthy id that arrived for the index, and `name`
and `arguments` are the in-order concatenations of the truthy
`function.name` / `function.arguments` fragments. -/
def accumulatedBuffer (ds : List ToolCallDelta) (i : Nat) : Option BufferedToolCall :=
  let grp := ds.filter (fun d => d.index == i)
  if grp.isEmpty then none
  else some
    { id := ((grp.filterMap deltaIdContribution).getLast?).getD ""
      name := strJoin (grp.map deltaNameContribution)
      arguments := strJoin (grp.map deltaArgsContribution) }

/-! ### Finalisation of buffered tool calls (lines 748-766) -/

structure FinalizedToolCall (J : Type) where
  id : String
  name : String
  arguments : J
deriving DecidableEq

/-- Lines 749-764: on `finish_reason === "tool_calls"`, every buffered
call with a truthy `name` and truthy `arguments` is JSON-parsed; a
parse failure drops that call (the `catch` only logs) and the loop
continues with the remaining buffered calls.  `parse` is the oracle for
`JSON.parse`, returning `none` on a throw. -/
def finalizeToolCalls {J : Type} (parse : String → Option J)
    (buffer : List (Nat × BufferedToolCall)) : List (FinalizedToolCall J) :=
  buffer.filterMap (fun p =>
    if p.2.name != "" && p.2.arguments != "" then
      (parse p.2.arguments).map (fun j =>
        ({ id := p.2.id, name := p.2.name, arguments := j } : FinalizedToolCall J))
    else
      none)

/-! ### Completion loop: conversation and token budget (lines 595-1008) -/

structure UsageStats where
  prompt_tokens : Nat
  completion_tokens : Nat
  total_tokens : Nat
  additional_cost_cents : Nat
deriving DecidableEq

structure AssistantToolCall where
  id : String
  name : String
  arguments : String
deriving DecidableEq

inductive Msg where
  | system (content : String) : Msg
  | user (content : String) : Msg
  | assistant (content : Option String) (toolCalls : List AssistantToolCall) : Msg
  | tool (toolCallId : String) (content : String) : Msg
deriving DecidableEq

def isToolMsg : Msg → Bool
  | Msg.tool _ _ => true
  | _ => false

/-- The outcome of one upstream streaming round, as observed by the
loop after the SSE read of lines 680-780: the accumulated assistant
text, the finalised tool calls (arguments already re-serialised by
`JSON.stringify`, kept opaque), whether `finish_reason` was
`stop`/`length`, and the round's reported usage (if any chunk carried
one). -/
structure LoopRound where
  assistantText : String
  toolCalls : List (FinalizedToolCall String)
  finished : Bool
  usage : Option UsageStats
deriving DecidableEq

/-- Lines 798-806: the `tool_calls` array of the assistant message. -/
def mkAssistantToolCalls (tcs : List (FinalizedToolCall String)) : List AssistantToolCall :=
  tcs.map (fun tc => { id := tc.id, name := tc.name, arguments := tc.arguments })

/-- Lines 792-810: `if (assistantMessage || toolCalls.length)` push the
assistant message with `content: assistantMessage || null` and the
tool-call array (empty models an absent field). -/
def assistantAppend (r : LoopRound) : List Msg :=
  if r.assistantText != "" || !r.toolCalls.isEmpty then
    [Msg.assistant (if r.assistantText == "" then none else some r.assistantText)
      (mkAssistantToolCalls r.toolCalls)]
  else
    []

/-- Line 817-819: a finalised call is dispatched only when
`mcpToolMap.has(name) && name.startsWith("mcp_tool_")`. -/
def isRegistered (toolMap : List (String × ToolMapEntry)) (nm : String) : Bool :=
  (mapGet toolMap nm).isSome && startsWithStr nm "mcp_tool_"

/-- Lines 816-1007: dispatching the round's finalised calls in order.
Every dispatched call appends exactly one `tool` message carrying the
call's `id` — the success path (lines 964-968) and the catch path
(lines 986-990) both do — so the message content is supplied by the
`toolContent` oracle.  Calls whose name is not registered are skipped
with no `tool` message at all. -/
def dispatchMsgs (toolMap : List (String × ToolMapEntry))
    (toolContent : FinalizedToolCall String → String)
    (tcs : List (FinalizedToolCall String)) : List Msg :=
  tcs.filterMap (fun tc =>
    if isRegistered toolMap tc.name then some (Msg.tool tc.id (toolContent tc)) else none)

/-- Lines 787-789: `remainingTokens -= stepUsage.completion_tokens`
when a usage was reported (`stepUsage` stays `null` otherwise). -/
def stepBudget (remaining : Option Int) (usage : Option UsageStats) : Option Int :=
  match remaining, usage with
  | some n, some u => some (n - u.completion_tokens)
  | some n, none => some n
  | none, _ => none

/-- Line 638: `remainingTokens === undefined || remainingTokens > 0`. -/
def budgetPositive : Option Int → Bool
  | none => true
  | some n => decide (0 < n)

/-- Line 814: `remainingTokens !== undefined && remainingTokens <= 0`. -/
def budgetExhausted : Option Int → Bool
  | none => false
  | some n => decide (n ≤ 0)

/-- One executed round of the outer `while` loop: the round data, the
budget after the round's deduction, whether the round's tool calls were
dispatched, and the messages appended to the working conversation. -/
structure RoundTrace where
  round : LoopRound
  budgetAfter : Option Int
  dispatched : Bool
  appended : List Msg
deriving DecidableEq

/-- Lines 638-1008: the outer completion loop.  Each list element of
`rounds` is the outcome of the next upstream call (the upstream LLM is
deterministic, so the rounds are data); the loop consumes a round only
when the budget check of line 638 passes, deducts the round's
completion tokens, appends the assistant message, and then either stops
(lines 812-814: `finished`, no tool calls, or exhausted budget — in
that order, and crucially BEFORE dispatching) or dispatches the tool
calls and continues. -/
def runLoop (toolMap : List (String × ToolMapEntry))
    (toolContent : FinalizedToolCall String → String) :
    Option Int → List LoopRound → List RoundTrace
  | _, [] => []
  | remaining, r :: rs =>
    if budgetPositive remaining then
      if r.finished || r.toolCalls.isEmpty || budgetExhausted (stepBudget remaining r.usage) then
        [{ round := r, budgetAfter := stepBudget remaining r.usage, dispatched := false,
           appended := assistantAppend r }]
      else
        { round := r, budgetAfter := stepBudget remaining r.usage, dispatched := true,
          appended := assistantAppend r ++ dispatchMsgs toolMap toolContent r.toolCalls } ::
          runLoop toolMap toolContent (stepBudget remaining r.usage) rs
    else
      []

/-- The messages the loop appends to the working conversation, in order. -/
def loopMessages (toolMap : List (String × ToolMapEntry))
    (toolContent : FinalizedToolCall String → String)
    (remaining : Option Int) (rounds : List LoopRound) : List Msg :=
  (runLoop toolMap toolContent remaining rounds).foldl (fun acc t => acc ++ t.appended) []

def roundCompletion (r : LoopRound) : Nat :=
  match r.usage with
  | some u => u.completion_tokens
  | none => 0

def traceCompletionSum (tr : List RoundTrace) : Nat :=
  (tr.map (fun t => roundCompletion t.round)).sum

def traceLastCompletion (tr : List RoundTrace) : Nat :=
  match tr.getLast? with
  | some t => roundCompletion t.round
  | none => 0

/-! ### Response emitter (lines 589-622, 1010-1054) -/

structure Delta where
  role : Option String
  content : Option String
  refusal : Option String
  reasoning_content : Option String
deriving DecidableEq

def emptyDelta : Delta :=
  { role := none, content := none, refusal := none, reasoning_content := none }

structure EmitState where
  enqueued : List Delta
  collectedContent : String
  collectedReasoningContent : String
deriving DecidableEq

/-- Lines 608-622: `emitChunk` enqueues the chunk to the caller only in
streaming mode, and always accumulates truthy `delta.content` and
`delta.reasoning_content` for the non-streaming fallback.  The chunk
sequence produced by the loop does not depend on
`userRequestedStream` (the flag is read nowhere else before the final
chunk), so identical inputs with a deterministic upstream produce the
same `ds` in both modes. -/
def emitChunk (userRequestedStream : Bool) (st : EmitState) (d : Delta) : EmitState :=
  { enqueued := if userRequestedStream then st.enqueued ++ [d] else st.enqueued
    collectedContent :=
      match d.content with
      | some s => if s != "" then st.collectedContent ++ s else st.collectedContent
      | none => st.collectedContent
    collectedReasoningContent :=
      match d.reasoning_content with
      | some s =>
        if s != "" then st.collectedReasoningContent ++ s else st.collectedReasoningContent
      | none => st.collectedReasoningContent }

def runEmit (userRequestedStream : Bool) (ds : List Delta) : EmitState :=
  ds.foldl (emitChunk userRequestedStream)
    { enqueued := [], collectedContent := "", collectedReasoningContent := "" }

/-- The concatenation of the `content` deltas of all chunks enqueued in
streaming mode. -/
def streamedContent (ds : List Delta) : String :=
  strJoin (((runEmit true ds).enqueued).map (fun d => d.content.getD ""))

/-- Lines 1030-1049: the non-streaming response's
`message.content = collectedContent || null`. -/
def nonStreamingMessageContent (ds : List Delta) : Option String :=
  if (runEmit false ds).collectedContent == "" then none
  else some (runEmit false ds).collectedContent

/-! ### Final streaming chunk (lines 1010-1027) -/

structure FinalChunk where
  delta : Delta
  finish_reason : Option String
  usage : Option UsageStats
deriving DecidableEq

/-- Lines 1012-1022: the final chunk has `delta:{}` and
`finish_reason:"stop"`, and carries the accumulated usage only when
`userRequestedUsage && totalUsage.total_tokens > 0`. -/
def mkFinalChunk (userRequestedUsage : Bool) (totalUsage : UsageStats) : FinalChunk :=
  if userRequestedUsage && decide (0 < totalUsage.total_tokens) then
    { delta := emptyDelta, finish_reason := some "stop", usage := some totalUsage }
  else
    { delta := emptyDelta, finish_reason := some "stop", usage := none }

inductive SSETail where
  | chunkLine (c : FinalChunk) : SSETail
  | doneLine : SSETail
deriving DecidableEq

/-- Lines 1024-1027: the final chunk line followed by `data: [DONE]`. -/
def finalEmission (userRequestedUsage : Bool) (totalUsage : UsageStats) : List SSETail :=
  [SSETail.chunkLine (mkFinalChunk userRequestedUsage totalUsage), SSETail.doneLine]

/-! ### tools/call dispatch (lines 845-1005) -/

structure ToolResponseMeta where
  status : Nat
  bodyText : String
deriving DecidableEq

/-- `Response.ok`: status in 200..299. -/
def responseOk (r : ToolResponseMeta) : Bool :=
  decide (200 ≤ r.status) && decide (r.status < 300)

structure RpcError where
  message : String
  code : Int
deriving DecidableEq

/-- A parsed JSON-RPC tools/call response; the `result.content`
formatting of lines 916-962 is orthogonal to the claims and is supplied
by the `formatResult` oracle. -/
structure RpcResult where
  error : Option RpcError
deriving DecidableEq

/-- Line 889: the truthiness test `session.sessionId`. -/
def sessionIdKnown (s : MCPSession) : Bool :=
  match s.sessionId with
  | some sid => sid != ""
  | none => false

/-- Lines 863-873: the headers of the `tools/call` POST, built from the
tool-map entry's `authorization` (the CURRENT request's value) and the
cached session's id. -/
def executeHeaders (authorization : Option String) (sessionId : Option String) :
    List (String × String) :=
  [("Content-Type", "application/json"),
   ("Accept", "application/json,text/event-stream"),
   ("MCP-Protocol-Version", "2025-06-18")] ++
  (match authorization with
   | some a => if a != "" then [("Authorization", a)] else []
   | none => []) ++
  (match sessionId with
   | some sid => if sid != "" then [("Mcp-Session-Id", sid)] else []
   | none => [])

inductive CallOutcome where
  | success (formatted : String) : CallOutcome
  | failure (message : String) : CallOutcome
deriving DecidableEq

/-- Lines 889-962: the body of the `try` block after the `tools/call`
fetch returned.  Status 404 with a known session id deletes the cached
session and throws `Session expired, please retry the request`; 401
throws the authentication error; any other non-2xx throws with status
and body; a JSON-RPC `error` field throws; otherwise the result is
formatted.  `parsed` is the oracle for `parseMCPResponse` (its `throw`
is `Except.error`). -/
def toolCallBody (sessions : List (String × MCPSession)) (serverUrl hostname originalName : String)
    (session : MCPSession) (resp : ToolResponseMeta) (parsed : Except String RpcResult)
    (formatResult : RpcResult → String) : List (String × MCPSession) × CallOutcome :=
  if resp.status == 404 && sessionIdKnown session then
    (mapDelete sessions serverUrl, CallOutcome.failure "Session expired, please retry the request")
  else if !responseOk resp then
    (if resp.status == 401 then
      (sessions, CallOutcome.failure
        ("Authentication failed for " ++ hostname ++ ". Please check your authorization token."))
    else
      (sessions, CallOutcome.failure
        ("Tool " ++ originalName ++ " failed with status " ++ toString resp.status ++ ": " ++
          resp.bodyText)))
  else
    match parsed with
    | Except.error e => (sessions, CallOutcome.failure e)
    | Except.ok rpc =>
      match rpc.error with
      | some err =>
        (sessions, CallOutcome.failure (err.message ++ " (code: " ++ toString err.code ++ ")"))
      | none => (sessions, CallOutcome.success (formatResult rpc))

/-- Lines 846-861: look the session up, re-initialising it (with the
current request's authorization) when absent or uninitialised. -/
def ensureSession (initOracle : Except String InitResult)
    (sessions : List (String × MCPSession)) (url : String) :
    Except String (List (String × MCPSession) × MCPSession) :=
  match mapGet sessions url with
  | some s =>
    if s.initialized then Except.ok (sessions, s)
    else
      match initOracle with
      | Except.error e => Except.error e
      | Except.ok r =>
        let s' : MCPSession :=
          { sessionId := normalizeSessionId r.sessionId, initialized := true, tools := r.tools }
        Except.ok (mapSet sessions url s', s')
  | none =>
    match initOracle with
    | Except.error e => Except.error e
    | Except.ok r =>
      let s' : MCPSession :=
        { sessionId := normalizeSessionId r.sessionId, initialized := true, tools := r.tools }
      Except.ok (mapSet sessions url s', s')

structure DispatchResult where
  sessions : List (String × MCPSession)
  toolMessage : Msg
  emittedContent : String
deriving DecidableEq

/-- Lines 845-1005 for a single registered tool call: ensure the
session, perform the call (its HTTP response and parsed body are
oracles), and either append the formatted result as a `tool` message
(also emitted to the caller wrapped in blank lines) or, on any thrown
error, append and emit `**Error**: <message>`.  The function is total:
an error never aborts the request, so the loop continues with the
remaining calls and rounds. -/
def dispatchOne (initOracle : Except String InitResult) (resp : ToolResponseMeta)
    (parsed : Except String RpcResult) (formatResult : RpcResult → String)
    (sessions : List (String × MCPSession)) (toolInfo : ToolMapEntry) (hostname : String)
    (tcId : String) : DispatchResult :=
  match ensureSession initOracle sessions toolInfo.serverUrl with
  | Except.error e =>
    { sessions := sessions, toolMessage := Msg.tool tcId ("**Error**: " ++ e)
      emittedContent := "\n\n**Error**: " ++ e ++ "\n\n" }
  | Except.ok (sessions1, session) =>
    match toolCallBody sessions1 toolInfo.serverUrl hostname toolInfo.originalName session resp
        parsed formatResult with
    | (sessions2, CallOutcome.success f) =>
      { sessions := sessions2, toolMessage := Msg.tool tcId f
        emittedContent := "\n\n" ++ f ++ "\n\n" }
    | (sessions2, CallOutcome.failure m) =>
      { sessions := sessions2, toolMessage := Msg.tool tcId ("**Error**: " ++ m)
        emittedContent := "\n\n**Error**: " ++ m ++ "\n\n" }

/-- The environment of one dispatched call: its tool-map entry and the
oracles for its network interactions. -/
structure CallEnv where
  toolInfo : ToolMapEntry
  hostname : String
  tcId : String
  initOracle : Except String InitResult
  resp : ToolResponseMeta
  parsed : Except String RpcResult

/-- Sequential dispatch of a round's registered calls (the `for` loop of
line 816), threading the session map. -/
def dispatchSeq (formatResult : RpcResult → String) :
    List CallEnv → List (String × MCPSession) → List Msg
  | [], _ => []
  | c :: cs, sessions =>
    let r := dispatchOne c.initOracle c.resp c.parsed formatResult sessions c.toolInfo
      c.hostname c.tcId
    r.toolMessage :: dispatchSeq formatResult cs r.sessions

/-! ## Helper lemmas -/

theorem mapGet_mapSet_same {K V : Type} [BEq K] [LawfulBEq K]
    (m : List (K × V)) (k : K) (v : V) : mapGet (mapSet m k v) k = some v := by
  induction m with
  | nil => simp [mapSet, mapGet]
  | cons p ps ih =>
    cases h : p.1 == k with
    | true => simp [mapSet, mapGet, h]
    | false => simp [mapSet, mapGet, h, ih]

theorem mapGet_mapSet_other {K V : Type} [BEq K] [LawfulBEq K]
    (m : List (K × V)) (k k' : K) (v : V) (h : k' ≠ k) :
    mapGet (mapSet m k v) k' = mapGet m k' := by
  induction m with
  | nil =>
    have hk : (k == k') = false := by simp [Ne.symm h]
    simp [mapSet, mapGet, hk]
  | cons p ps ih =>
    cases hp : p.1 == k with
    | true =>
      have hk : (k == k') = false := by simp [Ne.symm h]
      have hp' : p.1 = k := by simpa using hp
      simp [mapSet, mapGet, hp, hk, hp']
    | false => simp [mapSet, mapGet, hp, ih]

theorem mapGet_mapDelete_same {K V : Type} [BEq K] [LawfulBEq K]
    (m : List (K × V)) (k : K) : mapGet (mapDelete m k) k = none := by
  induction m with
  | nil => simp [mapDelete, mapGet]
  | cons p ps ih =>
    cases hp : p.1 == k with
    | true =>
      have hb : (p.1 != k) = false := by simp [bne, hp]
      simpa [mapDelete, List.filter_cons, hb] using ih
    | false =>
      have hb : (p.1 != k) = true := by simp [bne, hp]
      simpa [mapDelete, List.filter_cons, hb, mapGet, hp] using ih

theorem mapGet_foldl_mapSet_of_forall_ne {K V : Type} [BEq K] [LawfulBEq K]
    (pairs : List (K × V)) (m : List (K × V)) (k : K)
    (h : ∀ p ∈ pairs, p.1 ≠ k) :
    mapGet (pairs.foldl (fun acc p => mapSet acc p.1 p.2) m) k = mapGet m k := by
  induction pairs generalizing m with
  | nil => simp
  | cons p ps ih =>
    rw [List.foldl_cons, ih _ (fun q hq => h q (List.mem_cons_of_mem p hq))]
    exact mapGet_mapSet_other m p.1 k p.2 (Ne.symm (h p (List.mem_cons_self p ps)))

theorem mapGet_foldl_mapSet_eq_some {K V : Type} [BEq K] [LawfulBEq K]
    (pairs : List (K × V)) (m : List (K × V)) (k : K) (v : V)
    (h : mapGet (pairs.foldl (fun acc p => mapSet acc p.1 p.2) m) k = some v) :
    (k, v) ∈ pairs ∨ mapGet m k = some v := by
  induction pairs generalizing m with
  | nil => exact Or.inr h
  | cons p ps ih =>
    rw [List.foldl_cons] at h
    rcases ih _ h with hmem | hget
    · exact Or.inl (List.mem_cons_of_mem p hmem)
    · cases hp : p.1 == k with
      | true =>
        have hp' : p.1 = k := by simpa using hp
        rw [hp', mapGet_mapSet_same] at hget
        obtain rfl : p.2 = v := by injection hget
        exact Or.inl (by rw [← hp']; exact List.mem_cons_self p ps)
      | false =>
        have hp' : k ≠ p.1 := by
          intro he; rw [he] at hp; simp at hp
        rw [mapGet_mapSet_other _ _ _ _ hp'] at hget
        exact Or.inr hget

theorem mapGet_foldl_mapSet_nodup {K V : Type} [BEq K] [LawfulBEq K]
    (pairs : List (K × V)) (m : List (K × V)) (k : K) (v : V)
    (hnd : (pairs.map Prod.fst).Nodup) (hmem : (k, v) ∈ pairs) :
    mapGet (pairs.foldl (fun acc p => mapSet acc p.1 p.2) m) k = some v := by
  induction pairs generalizing m with
  | nil => simp at hmem
  | cons p ps ih =>
    rw [List.map_cons, List.nodup_cons] at hnd
    rcases List.mem_cons.mp hmem with rfl | hmem'
    · rw [List.foldl_cons]
      have hfst : ∀ q ∈ ps, q.1 ≠ (k, v).1 := by
        intro q hq hqk
        apply hnd.1
        rw [← hqk]
        exact List.mem_map_of_mem Prod.fst hq
      rw [mapGet_foldl_mapSet_of_forall_ne ps (mapSet m (k, v).1 (k, v).2) (k, v).1 hfst]
      exact mapGet_mapSet_same m (k, v).1 (k, v).2
    · rw [List.foldl_cons]
      exact ih (mapSet m p.1 p.2) hnd.2 hmem'

/-! ## C4: request validation -/

/-- C4 (amended).  A request whose tools list contains an MCP tool spec
with a missing or empty `server_url`, or with `require_approval` set to
any TRUTHY value other than exactly `"never"`, is rejected with HTTP
400 and the `Invalid MCP tools` / `invalid_request_error` body,
regardless of every other field of the request; the rejection is
decided by `validateMcpTools`, which runs before any upstream or MCP
network call.  (The claim's stronger condition — any value other than
absent, null, or `"never"` — is refuted by the counterexample below:
the code's `(require_approval || "never")` also accepts every falsy
value, e.g. the empty string.) -/
theorem validateMcpTools_rejects_invalid (ts : List RequestTool) (spec : MCPToolSpec)
    (hmem : RequestTool.mcp spec ∈ ts) (hinv : isInvalidMcpSpec spec = true) :
    validateMcpTools (some ts) = some (400, invalidMcpToolsBody) := by
  have h1 : spec ∈ mcpSpecsOf ts := by
    rw [mcpSpecsOf]
    exact List.mem_filterMap.mpr ⟨RequestTool.mcp spec, hmem, rfl⟩
  have h2 : spec ∈ (mcpSpecsOf ts).filter isInvalidMcpSpec :=
    List.mem_filter.mpr ⟨h1, hinv⟩
  have h3 : 0 < ((mcpSpecsOf ts).filter isInvalidMcpSpec).length :=
    List.length_pos.mpr (List.ne_nil_of_mem h2)
  rw [validateMcpTools]
  rw [if_pos h3]

/-- Witness for C4: a spec with `require_approval:"always"` (and an
unrelated extra function tool) is rejected with the exact 400 body. -/
theorem validateMcpTools_rejects_invalid_witness :
    validateMcpTools (some
      [RequestTool.function "f",
       RequestTool.mcp ⟨some "https://x", none, none, some (JsonPrim.str "always")⟩]) =
      some (400, invalidMcpToolsBody) :=
  validateMcpTools_rejects_invalid _
    ⟨some "https://x", none, none, some (JsonPrim.str "always")⟩
    (by decide) (by decide)

/-- Counterexample to C4 as stated: `require_approval` set to the empty
string is a value other than absent, null, or `"never"`, yet the
request passes validation (no HTTP 400), because the source's
`(x.require_approval || "never")` replaces every falsy value by
`"never"` before comparing. -/
theorem validateMcpTools_falsy_approval_accepted :
    validateMcpTools (some
      [RequestTool.mcp ⟨some "https://x", none, none, some (JsonPrim.str "")⟩]) = none ∧
    some (JsonPrim.str "") ≠ (none : Option JsonPrim) ∧
    JsonPrim.str "" ≠ JsonPrim.null ∧
    JsonPrim.str "" ≠ JsonPrim.str "never" := by
  decide

/-! ## C8: finalisation of buffered tool calls -/

/-- C8.  When a round ends with `finish_reason:"tool_calls"`, exactly
the buffered calls with a non-empty name, a non-empty arguments string,
and JSON-parsable arguments are finalised: a buffered call failing any
of those three conditions is dropped from the finalised list without
disturbing the calls before or after it (first conjunct), and a
buffered call meeting all three is kept in place with its parsed
arguments (second conjunct).  So a JSON parse failure never aborts the
round: the remaining finalised calls are still produced, in order, and
are the ones the dispatch loop receives. -/
theorem finalizeToolCalls_drop_and_keep {J : Type} (parse : String → Option J)
    (a b : List (Nat × BufferedToolCall)) (p : Nat × BufferedToolCall) :
    ((p.2.name = "" ∨ p.2.arguments = "" ∨ parse p.2.arguments = none) →
       finalizeToolCalls parse (a ++ p :: b) =
         finalizeToolCalls parse a ++ finalizeToolCalls parse b) ∧
    (∀ j : J, p.2.name ≠ "" → p.2.arguments ≠ "" → parse p.2.arguments = some j →
       finalizeToolCalls parse (a ++ p :: b) =
         finalizeToolCalls parse a ++
           ({ id := p.2.id, name := p.2.name, arguments := j } : FinalizedToolCall J) ::
             finalizeToolCalls parse b) := by
  constructor
  · intro h
    rw [finalizeToolCalls, List.filterMap_append, List.filterMap_cons]
    rcases h with h | h | h
    · simp [h, finalizeToolCalls]
    · simp [h, finalizeToolCalls]
    · by_cases hn : p.2.name = ""
      · simp [hn, finalizeToolCalls]
      · by_cases ha : p.2.arguments = ""
        · simp [ha, finalizeToolCalls]
        · simp [hn, ha, h, finalizeToolCalls]
  · intro j hn ha hp
    rw [finalizeToolCalls, List.filterMap_append, List.filterMap_cons]
    simp [hn, ha, hp, finalizeToolCalls]

/-- Witness for C8: a buffered call with unparsable arguments sits
between two good calls; it is dropped and the good calls survive. -/
theorem finalizeToolCalls_drop_and_keep_witness :
    finalizeToolCalls (fun s => if s == "1" then some 1 else none)
        ([(0, ⟨"id0", "alpha", "1"⟩)] ++ (1, ⟨"id1", "beta", "oops"⟩) ::
          [(2, ⟨"id2", "gamma", "1"⟩)]) =
      finalizeToolCalls (fun s => if s == "1" then some (1 : Nat) else none)
          [(0, ⟨"id0", "alpha", "1"⟩)] ++
        finalizeToolCalls (fun s => if s == "1" then some 1 else none)
          [(2, ⟨"id2", "gamma", "1"⟩)] :=
  (finalizeToolCalls_drop_and_keep (fun s => if s == "1" then some 1 else none)
    [(0, ⟨"id0", "alpha", "1"⟩)] [(2, ⟨"id2", "gamma", "1"⟩)]
    (1, ⟨"id1", "beta", "oops"⟩)).1 (Or.inr (Or.inr rfl))

/-! ## C9: the final streaming chunk -/

/-- C9.  In streaming mode the final SSE chunk always has an empty
delta and `finish_reason:"stop"`; it carries the accumulated `usage`
object (with its `prompt_tokens`, `completion_tokens`, `total_tokens`,
`additional_cost_cents` fields) exactly when the caller set
`stream_options.include_usage` AND the accumulated `total_tokens` is
positive; and the emission is that chunk line followed by the
terminating `data: [DONE]` line. -/
theorem finalEmission_usage_iff (userRequestedUsage : Bool) (totalUsage : UsageStats) :
    (mkFinalChunk userRequestedUsage totalUsage).delta = emptyDelta ∧
    (mkFinalChunk userRequestedUsage totalUsage).finish_reason = some "stop" ∧
    ((mkFinalChunk userRequestedUsage totalUsage).usage = some totalUsage ↔
      (userRequestedUsage = true ∧ 0 < totalUsage.total_tokens)) ∧
    finalEmission userRequestedUsage totalUsage =
      [SSETail.chunkLine (mkFinalChunk userRequestedUsage totalUsage), SSETail.doneLine] := by
  refine ⟨?_, ?_, ?_, rfl⟩
  · rw [mkFinalChunk]; split <;> rfl
  · rw [mkFinalChunk]; split <;> rfl
  · rw [mkFinalChunk]
    by_cases h : (userRequestedUsage && decide (0 < totalUsage.total_tokens)) = true
    · rw [if_pos h]
      simp only [Bool.and_eq_true, decide_eq_true_eq] at h
      simp [h]
    · rw [if_neg h]
      simp only [Bool.and_eq_true, decide_eq_true_eq] at h
      simp
      intro hu
      have hz : ¬ 0 < totalUsage.total_tokens := fun hp => h ⟨hu, hp⟩
      omega

/-! ## C7: the tool-call delta accumulator -/

theorem applyToolCallDelta_eq (b : BufferedToolCall) (d : ToolCallDelta) :
    applyToolCallDelta b d =
      { id := (deltaIdContribution d).getD b.id
        name := b.name ++ deltaNameContribution d
        arguments := b.arguments ++ deltaArgsContribution d } := by
  rcases d with ⟨i, oid, ofn⟩
  rcases b with ⟨bid, bname, bargs⟩
  rcases oid with _ | i2 <;> rcases ofn with _ | ⟨fn, fa⟩
  · simp [applyToolCallDelta, deltaIdContribution, deltaNameContribution,
      deltaArgsContribution, String.append_empty]
  · rcases fn with _ | n2 <;> rcases fa with _ | a2 <;>
      simp only [applyToolCallDelta, deltaIdContribution, deltaNameContribution,
        deltaArgsContribution] <;>
      first
        | (split_ifs <;> simp_all [String.append_empty])
        | simp_all [String.append_empty]
  · simp only [applyToolCallDelta, deltaIdContribution, deltaNameContribution,
      deltaArgsContribution]
    split_ifs <;> simp_all [String.append_empty]
  · rcases fn with _ | n2 <;> rcases fa with _ | a2 <;>
      simp only [applyToolCallDelta, deltaIdContribution, deltaNameContribution,
        deltaArgsContribution] <;>
      split_ifs <;>
      simp_all [String.append_empty]

theorem getLast?_getD_cons {α : Type} (x : α) (l : List α) (dflt : α) :
    ((x :: l).getLast?).getD dflt = (l.getLast?).getD x := by
  induction l generalizing x dflt with
  | nil => simp
  | cons y l ih =>
    rw [List.getLast?_cons_cons, ih y dflt, ih y x]

theorem foldl_applyToolCallDelta (grp : List ToolCallDelta) (b : BufferedToolCall) :
    grp.foldl applyToolCallDelta b =
      { id := ((grp.filterMap deltaIdContribution).getLast?).getD b.id
        name := b.name ++ strJoin (grp.map deltaNameContribution)
        arguments := b.arguments ++ strJoin (grp.map deltaArgsContribution) } := by
  induction grp generalizing b with
  | nil => cases b; simp [strJoin, String.append_empty]
  | cons d rest ih =>
    rw [List.foldl_cons, ih (applyToolCallDelta b d), applyToolCallDelta_eq]
    cases hc : deltaIdContribution d with
    | none => simp [List.filterMap_cons, hc, strJoin, String.append_assoc]
    | some x =>
      simp [List.filterMap_cons, hc, strJoin, String.append_assoc, getLast?_getD_cons]

theorem mapGet_foldToolCallDeltas_aux (ds : List ToolCallDelta)
    (buf : List (Nat × BufferedToolCall)) (i : Nat) :
    mapGet (ds.foldl (fun acc d =>
        mapSet acc d.index
          (applyToolCallDelta ((mapGet acc d.index).getD emptyBufferedToolCall) d)) buf) i =
      (if (ds.filter (fun d => d.index == i)).isEmpty then mapGet buf i
       else some ((ds.filter (fun d => d.index == i)).foldl applyToolCallDelta
         ((mapGet buf i).getD emptyBufferedToolCall))) := by
  induction ds generalizing buf with
  | nil => simp
  | cons d rest ih =>
    rw [List.foldl_cons, ih]
    by_cases hd : d.index = i
    · subst hd
      have h1 : mapGet (mapSet buf d.index
          (applyToolCallDelta ((mapGet buf d.index).getD emptyBufferedToolCall) d)) d.index =
          some (applyToolCallDelta ((mapGet buf d.index).getD emptyBufferedToolCall) d) :=
        mapGet_mapSet_same _ _ _
      rw [List.filter_cons]
      by_cases he : (rest.filter (fun x => x.index == d.index)).isEmpty
      · have hfnil : rest.filter (fun x => x.index == d.index) = [] := by
          simpa [List.isEmpty_iff] using he
        simp [he, hfnil, h1]
      · simp [he, h1, List.foldl_cons]
    · have hbne : (d.index == i) = false := by simpa using hd
      have h2 : mapGet (mapSet buf d.index
          (applyToolCallDelta ((mapGet buf d.index).getD emptyBufferedToolCall) d)) i =
          mapGet buf i :=
        mapGet_mapSet_other _ _ _ _ (fun he => hd he.symm)
      rw [List.filter_cons]
      simp [hbne, h2]

/-- C7 (amended).  For every sequence of upstream `delta.tool_calls`
elements, the accumulator keyed by `tool_calls[].index` holds, for each
index that appeared, an entry whose `id` is the LAST truthy `id` that
arrived for that index (each id-carrying delta overwrites the stored
id — NOT "set once"; see the counterexample), and whose `name` and
`arguments` are the string-wise concatenations, in arrival order, of
the truthy `function.name` / `function.arguments` fragments. -/
theorem foldToolCallDeltas_characterization (ds : List ToolCallDelta) (i : Nat) :
    mapGet (foldToolCallDeltas ds) i = accumulatedBuffer ds i := by
  rw [foldToolCallDeltas, mapGet_foldToolCallDeltas_aux, accumulatedBuffer]
  by_cases he : (ds.filter (fun d => d.index == i)).isEmpty
  · simp [he, mapGet]
  · rw [if_neg he]
    simp only [he, if_false, Bool.false_eq_true]
    rw [foldl_applyToolCallDelta]
    simp [mapGet, emptyBufferedToolCall, String.empty_append]

/-- Counterexample to C7 as stated: two deltas for index 0 both carry
an id; the claim says the first (`call_a`) is kept ("set once, never
overwritten"), but the accumulator ends up holding the second
(`call_b`). -/
theorem foldToolCallDeltas_id_overwritten :
    mapGet (foldToolCallDeltas
        [⟨0, some "call_a", none⟩, ⟨0, some "call_b", none⟩]) 0 =
      some ⟨"call_b", "", ""⟩ ∧
    ("call_b" : String) ≠ "call_a" := by
  decide

/-! ## C5: streaming vs non-streaming content -/

theorem runEmit_collected_aux (flag : Bool) (ds : List Delta) (st : EmitState) :
    (ds.foldl (emitChunk flag) st).collectedContent =
      st.collectedContent ++ strJoin (ds.map (fun d => d.content.getD "")) := by
  induction ds generalizing st with
  | nil => simp [strJoin, String.append_empty]
  | cons d rest ih =>
    rw [List.foldl_cons, ih, List.map_cons]
    cases hc : d.content with
    | none => simp [emitChunk, hc, strJoin, String.empty_append]
    | some s =>
      by_cases hs : s = ""
      · simp [emitChunk, hc, hs, strJoin, String.empty_append]
      · have hb : (s != "") = true := by simpa using hs
        simp [emitChunk, hc, hb, strJoin, String.append_assoc]

theorem runEmit_enqueued_aux (ds : List Delta) (st : EmitState) :
    (ds.foldl (emitChunk true) st).enqueued = st.enqueued ++ ds := by
  induction ds generalizing st with
  | nil => simp
  | cons d rest ih =>
    rw [List.foldl_cons, ih]
    simp [emitChunk]

/-- C5 (amended).  The chunk sequence is independent of the caller's
`stream` flag (the pipeline forces `stream:true` internally and reads
`userRequestedStream` only inside `emitChunk` and at the end), so for
identical inputs and a deterministic upstream the two modes see the
same chunks `ds`.  Whenever the concatenation of the streamed `content`
deltas is non-empty, it equals the `message.content` of the
non-streaming JSON object.  (When it is empty the modes diverge:
`collectedContent || null` makes the non-streaming `message.content`
`null` while the streamed concatenation is the empty string — see the
counterexample.) -/
theorem streaming_nonstreaming_content_equiv (ds : List Delta)
    (h : streamedContent ds ≠ "") :
    nonStreamingMessageContent ds = some (streamedContent ds) := by
  have henq : (runEmit true ds).enqueued = ds := by
    simpa [runEmit] using runEmit_enqueued_aux ds
      { enqueued := [], collectedContent := "", collectedReasoningContent := "" }
  have hst : streamedContent ds = strJoin (ds.map (fun d => d.content.getD "")) := by
    rw [streamedContent, henq]
  have hcol : (runEmit false ds).collectedContent =
      strJoin (ds.map (fun d => d.content.getD "")) := by
    simpa [runEmit, String.empty_append] using runEmit_collected_aux false ds
      { enqueued := [], collectedContent := "", collectedReasoningContent := "" }
  rw [nonStreamingMessageContent, hcol, ← hst]
  rw [if_neg (by simpa using h)]

/-- Witness for C5: two content deltas concatenate to `"hello"` in both
modes. -/
theorem streaming_nonstreaming_content_equiv_witness :
    nonStreamingMessageContent
        [⟨none, some "he", none, none⟩, ⟨none, some "llo", none, none⟩] =
      some (streamedContent
        [⟨none, some "he", none, none⟩, ⟨none, some "llo", none, none⟩]) :=
  streaming_nonstreaming_content_equiv
    [⟨none, some "he", none, none⟩, ⟨none, some "llo", none, none⟩] (by decide)

/-- Counterexample to C5 as stated: with no content deltas at all (here
only the role-announcement chunk) the streamed concatenation is the
empty string but the non-streaming `message.content` is `null`
(`collectedContent || null`), so the two are not equal. -/
theorem streaming_nonstreaming_empty_content_diverges :
    nonStreamingMessageContent [⟨some "assistant", none, none, none⟩] ≠
      some (streamedContent [⟨some "assistant", none, none, none⟩]) ∧
    streamedContent [⟨some "assistant", none, none, none⟩] = "" ∧
    nonStreamingMessageContent [⟨some "assistant", none, none, none⟩] = none := by
  decide

/-! ## C1: conversation well-formedness -/

/-- C1 (amended).  After the loop terminates, every executed round's
appended block is well formed: (a) every `tool` message appended during
the round carries a `tool_call_id` equal to the `id` of a `tool_call`
of the assistant message that heads the same block — the immediately
preceding assistant message in the working conversation, since blocks
are appended contiguously; and (b) every round that dispatched appended
the assistant message followed by EXACTLY one `tool` message per
finalised call whose name is registered in the MCP tool map and starts
with `mcp_tool_` (that is `dispatchMsgs`), before the next upstream
call.  Restricting to registered synthetic names is forced: a finalised
call with an unregistered name is skipped with no `tool` message at all
(see the counterexample). -/
theorem runLoop_trace_wellformed (toolMap : List (String × ToolMapEntry))
    (toolContent : FinalizedToolCall String → String) (remaining : Option Int)
    (rounds : List LoopRound) (t : RoundTrace)
    (ht : t ∈ runLoop toolMap toolContent remaining rounds) :
    (∀ i c, Msg.tool i c ∈ t.appended →
       ∃ cnt tcs, t.appended.head? = some (Msg.assistant cnt tcs) ∧
         i ∈ tcs.map (fun a => a.id)) ∧
    (t.dispatched = true →
       t.appended = assistantAppend t.round ++ dispatchMsgs toolMap toolContent t.round.toolCalls) := by
  induction rounds generalizing remaining with
  | nil => simp [runLoop] at ht
  | cons r rs ih =>
    rw [runLoop] at ht
    by_cases hb : budgetPositive remaining
    · rw [if_pos hb] at ht
      by_cases hstop :
          (r.finished || r.toolCalls.isEmpty ||
            budgetExhausted (stepBudget remaining r.usage)) = true
      · rw [if_pos hstop] at ht
        rcases List.mem_singleton.mp ht with rfl
        refine ⟨?_, ?_⟩
        · intro i c hmem
          exfalso
          simp only [assistantAppend] at hmem
          split at hmem
          · simp at hmem
          · simp at hmem
        · intro hdisp
          simp at hdisp
      · rw [if_neg hstop] at ht
        have hstop' : r.finished = false ∧ r.toolCalls.isEmpty = false ∧
            budgetExhausted (stepBudget remaining r.usage) = false := by
          simpa only [Bool.or_eq_true, not_or, Bool.not_eq_true, and_assoc] using hstop
        rcases List.mem_cons.mp ht with rfl | hmem'
        · have hne : r.toolCalls.isEmpty = false := hstop'.2.1
          have hasst : assistantAppend r =
              [Msg.assistant (if r.assistantText == "" then none else some r.assistantText)
                (mkAssistantToolCalls r.toolCalls)] := by
            rw [assistantAppend, if_pos]
            simp [hne]
          refine ⟨?_, fun _ => rfl⟩
          intro i c hmem
          simp only [] at hmem
          rcases List.mem_append.mp hmem with hmem1 | hmem2
          · rw [hasst] at hmem1
            simp at hmem1
          · rcases List.mem_filterMap.mp hmem2 with ⟨tc, htc, heq⟩
            refine ⟨(if r.assistantText == "" then none else some r.assistantText),
              mkAssistantToolCalls r.toolCalls, ?_, ?_⟩
            · show (assistantAppend r ++
                  dispatchMsgs toolMap toolContent r.toolCalls).head? = _
              rw [hasst]
              rfl
            · split at heq
              · have hpair : tc.id = i ∧ toolContent tc = c := by simpa using heq
                have : i ∈ r.toolCalls.map (fun x => x.id) :=
                  List.mem_map.mpr ⟨tc, htc, hpair.1⟩
                simpa [mkAssistantToolCalls, List.map_map, Function.comp] using this
              · simp at heq
        · exact ih _ hmem'
    · rw [if_neg hb] at ht
      simp at ht

/-- Witness for C1: a round with one registered `mcp_tool_` call; its
trace block is exactly the assistant message followed by the matching
`tool` message. -/
theorem runLoop_trace_wellformed_witness :
    ({ round := ⟨"", [⟨"t1", "mcp_tool_example-com_srch", "1"⟩], false, none⟩,
       budgetAfter := none, dispatched := true,
       appended := [Msg.assistant none [⟨"t1", "mcp_tool_example-com_srch", "1"⟩],
         Msg.tool "t1" "RESULT"] } : RoundTrace).appended =
      assistantAppend ⟨"", [⟨"t1", "mcp_tool_example-com_srch", "1"⟩], false, none⟩ ++
        dispatchMsgs [("mcp_tool_example-com_srch", ⟨"https://example.com", "srch", none⟩)]
          (fun _ => "RESULT") [⟨"t1", "mcp_tool_example-com_srch", "1"⟩] :=
  (runLoop_trace_wellformed
    [("mcp_tool_example-com_srch", ⟨"https://example.com", "srch", none⟩)]
    (fun _ => "RESULT") none
    [⟨"", [⟨"t1", "mcp_tool_example-com_srch", "1"⟩], false, none⟩]
    { round := ⟨"", [⟨"t1", "mcp_tool_example-com_srch", "1"⟩], false, none⟩,
      budgetAfter := none, dispatched := true,
      appended := [Msg.assistant none [⟨"t1", "mcp_tool_example-com_srch", "1"⟩],
        Msg.tool "t1" "RESULT"] }
    (by decide)).2 rfl

/-- Counterexample to C1 as stated: a round finalises a tool call named
`my_func` — a name NOT registered in the MCP tool map — and the loop
proceeds to a second upstream round.  The working conversation ends up
with an assistant message carrying that tool call, followed directly by
the next round's assistant message: no `tool` message was ever
appended (the conversation contains none at all), contradicting the
claim's "this holds for all finalised tool calls, including those whose
name is not a registered mcp_tool_ synthetic name". -/
theorem runLoop_unregistered_toolcall_gap :
    loopMessages [] (fun _ => "") none
        [⟨"", [⟨"t1", "my_func", "1"⟩], false, none⟩, ⟨"done", [], true, none⟩] =
      [Msg.assistant none [⟨"t1", "my_func", "1"⟩], Msg.assistant (some "done") []] ∧
    (loopMessages [] (fun _ => "") none
        [⟨"", [⟨"t1", "my_func", "1"⟩], false, none⟩, ⟨"done", [], true, none⟩]).filter
        isToolMsg = [] ∧
    (runLoop [] (fun _ => "") none
        [⟨"", [⟨"t1", "my_func", "1"⟩], false, none⟩, ⟨"done", [], true, none⟩]).length = 2 := by
  decide

/-! ## C3: token budget enforcement -/

theorem stepBudget_some_eq (m : Int) (r : LoopRound) :
    stepBudget (some m) r.usage = some (m - roundCompletion r) := by
  cases h : r.usage <;> simp [stepBudget, roundCompletion, h]

theorem runLoop_budget_sum_aux (toolMap : List (String × ToolMapEntry))
    (toolContent : FinalizedToolCall String → String) (rounds : List LoopRound) :
    ∀ m : Int, (traceCompletionSum (runLoop toolMap toolContent (some m) rounds) : Int) ≤
      max m 0 + traceLastCompletion (runLoop toolMap toolContent (some m) rounds) := by
  induction rounds with
  | nil =>
    intro m
    simp [runLoop, traceCompletionSum, traceLastCompletion, le_max_right]
  | cons r rs ih =>
    intro m
    rw [runLoop]
    by_cases hb : budgetPositive (some m)
    · rw [if_pos hb, stepBudget_some_eq]
      have h0 : (0 : Int) ≤ max m 0 := le_max_right m 0
      have hm : 0 < m := by simpa [budgetPositive] using hb
      by_cases hstop : (r.finished || r.toolCalls.isEmpty ||
          budgetExhausted (some (m - roundCompletion r))) = true
      · rw [if_pos hstop]
        simp only [traceCompletionSum, traceLastCompletion, List.map_cons, List.map_nil,
          List.sum_cons, List.sum_nil]
        simp only [List.getLast?_singleton]
        push_cast
        linarith
      · rw [if_neg hstop]
        have hex : budgetExhausted (some (m - roundCompletion r)) = false := by
          have := (by simpa only [Bool.or_eq_true, not_or, Bool.not_eq_true, and_assoc]
            using hstop : r.finished = false ∧ r.toolCalls.isEmpty = false ∧
              budgetExhausted (some (m - roundCompletion r)) = false)
          exact this.2.2
        have hpos : 0 < m - roundCompletion r := by
          have := hex
          simp only [budgetExhausted, decide_eq_false_iff_not, not_le] at this
          exact this
        cases hrec : runLoop toolMap toolContent (some (m - roundCompletion r)) rs with
        | nil =>
          simp only [traceCompletionSum, traceLastCompletion, List.map_cons, List.map_nil,
            List.sum_cons, List.sum_nil]
          simp only [List.getLast?_singleton]
          push_cast
          linarith
        | cons t2 ts =>
          have ihm := ih (m - roundCompletion r)
          rw [hrec] at ihm
          rw [max_eq_left (le_of_lt hpos)] at ihm
          have hlast : ∀ t0 : RoundTrace,
              traceLastCompletion (t0 :: t2 :: ts) = traceLastCompletion (t2 :: ts) := by
            intro t0
            simp [traceLastCompletion, List.getLast?_cons_cons]
          have hsum : ∀ t0 : RoundTrace,
              traceCompletionSum (t0 :: t2 :: ts) =
                roundCompletion t0.round + traceCompletionSum (t2 :: ts) := by
            intro t0
            simp [traceCompletionSum]
          rw [hlast, hsum]
          push_cast
          have hmaxm : m ≤ max m 0 := le_max_left m 0
          linarith
    · rw [if_neg hb]
      simp [traceCompletionSum, traceLastCompletion, le_max_right]

theorem runLoop_exhausted_last (toolMap : List (String × ToolMapEntry))
    (toolContent : FinalizedToolCall String → String) (rounds : List LoopRound) :
    ∀ (remaining : Option Int) (t : RoundTrace),
      t ∈ runLoop toolMap toolContent remaining rounds →
      budgetExhausted t.budgetAfter = true →
      t.dispatched = false ∧
      (runLoop toolMap toolContent remaining rounds).getLast? = some t := by
  induction rounds with
  | nil =>
    intro remaining t ht
    simp [runLoop] at ht
  | cons r rs ih =>
    intro remaining t ht hex
    rw [runLoop] at ht ⊢
    by_cases hb : budgetPositive remaining
    · rw [if_pos hb] at ht ⊢
      by_cases hstop : (r.finished || r.toolCalls.isEmpty ||
          budgetExhausted (stepBudget remaining r.usage)) = true
      · rw [if_pos hstop] at ht ⊢
        rcases List.mem_singleton.mp ht with rfl
        exact ⟨rfl, by simp⟩
      · rw [if_neg hstop] at ht ⊢
        have hstop' : r.finished = false ∧ r.toolCalls.isEmpty = false ∧
            budgetExhausted (stepBudget remaining r.usage) = false := by
          simpa only [Bool.or_eq_true, not_or, Bool.not_eq_true, and_assoc] using hstop
        rcases List.mem_cons.mp ht with rfl | hmem'
        · exfalso
          have hb' : budgetExhausted (stepBudget remaining r.usage) = true := hex
          rw [hstop'.2.2] at hb'
          simp at hb'
        · obtain ⟨hdisp, hlast⟩ := ih (stepBudget remaining r.usage) t hmem' hex
          refine ⟨hdisp, ?_⟩
          cases hrl : runLoop toolMap toolContent (stepBudget remaining r.usage) rs with
          | nil =>
            rw [hrl] at hmem'
            simp at hmem'
          | cons t2 ts =>
            rw [hrl] at hlast
            rw [List.getLast?_cons_cons]
            exact hlast
    · rw [if_neg hb] at ht
      simp at ht

/-- C3.  When the caller supplies `max_tokens` or
`max_completion_tokens` = N, the loop starts with budget N and deducts
each round's reported `completion_tokens` (`stepBudget`, inside
`runLoop`).  The sum of per-round completion tokens over the whole
request is at most N plus the completion tokens of the final (possibly
overshooting) round, and any round that leaves the budget at zero or
below is the last one and did not dispatch its tool calls. -/
theorem runLoop_budget_enforcement (toolMap : List (String × ToolMapEntry))
    (toolContent : FinalizedToolCall String → String) (N : Nat) (rounds : List LoopRound) :
    traceCompletionSum (runLoop toolMap toolContent (some (N : Int)) rounds) ≤
      N + traceLastCompletion (runLoop toolMap toolContent (some (N : Int)) rounds) ∧
    ∀ t ∈ runLoop toolMap toolContent (some (N : Int)) rounds,
      budgetExhausted t.budgetAfter = true →
        t.dispatched = false ∧
        (runLoop toolMap toolContent (some (N : Int)) rounds).getLast? = some t := by
  constructor
  · have h := runLoop_budget_sum_aux toolMap toolContent rounds (N : Int)
    rw [max_eq_left (Int.natCast_nonneg N)] at h
    exact_mod_cast h
  · intro t ht hex
    exact runLoop_exhausted_last toolMap toolContent rounds _ t ht hex

/-- Witness for C3: budget 5, one round reporting 7 completion tokens.
The round overshoots (budget falls to -2), is the last round, and its
tool calls were not dispatched. -/
theorem runLoop_budget_enforcement_witness :
    ({ round := ⟨"hi", [⟨"t1", "mcp_tool_x_y", "1"⟩], false, some ⟨1, 7, 8, 0⟩⟩,
       budgetAfter := some (-2), dispatched := false,
       appended := [Msg.assistant (some "hi") [⟨"t1", "mcp_tool_x_y", "1"⟩]] } :
        RoundTrace).dispatched = false ∧
    (runLoop [] (fun _ => "") (some ((5 : Nat) : Int))
        [⟨"hi", [⟨"t1", "mcp_tool_x_y", "1"⟩], false, some ⟨1, 7, 8, 0⟩⟩]).getLast? =
      some ({ round := ⟨"hi", [⟨"t1", "mcp_tool_x_y", "1"⟩], false, some ⟨1, 7, 8, 0⟩⟩,
              budgetAfter := some (-2), dispatched := false,
              appended := [Msg.assistant (some "hi") [⟨"t1", "mcp_tool_x_y", "1"⟩]] } :
        RoundTrace) :=
  (runLoop_budget_enforcement [] (fun _ => "") 5
    [⟨"hi", [⟨"t1", "mcp_tool_x_y", "1"⟩], false, some ⟨1, 7, 8, 0⟩⟩]).2
    ({ round := ⟨"hi", [⟨"t1", "mcp_tool_x_y", "1"⟩], false, some ⟨1, 7, 8, 0⟩⟩,
       budgetAfter := some (-2), dispatched := false,
       appended := [Msg.assistant (some "hi") [⟨"t1", "mcp_tool_x_y", "1"⟩]] } : RoundTrace)
    (by decide) (by decide)

/-! ## C2: synthetic-name round trip -/

theorem recordSpec_toolMap_inv (hostnameOf : String → String) (st : DiscoverState)
    (spec : MCPToolSpec) (sessions' : List (String × MCPSession)) (handshakes' : List String)
    (session : MCPSession)
    (h : st.toolMap = st.contributions.foldl (fun m p => mapSet m p.1 p.2) []) :
    (recordSpec hostnameOf st spec sessions' handshakes' session).toolMap =
      (recordSpec hostnameOf st spec sessions' handshakes' session).contributions.foldl
        (fun m p => mapSet m p.1 p.2) [] := by
  simp only [recordSpec]
  rw [List.foldl_append, ← h, List.foldl_map]

theorem discoverSpec_toolMap_inv (hostnameOf : String → String)
    (initOracle : String → Except String InitResult) (st : DiscoverState) (spec : MCPToolSpec)
    (h : st.toolMap = st.contributions.foldl (fun m p => mapSet m p.1 p.2) []) :
    (discoverSpec hostnameOf initOracle st spec).toolMap =
      (discoverSpec hostnameOf initOracle st spec).contributions.foldl
        (fun m p => mapSet m p.1 p.2) [] := by
  rw [discoverSpec]
  cases mapGet st.sessions (serverUrlOf spec) with
  | some s =>
    dsimp only
    by_cases hi : s.initialized = true
    · rw [if_pos hi]
      exact recordSpec_toolMap_inv _ _ _ _ _ _ h
    · rw [if_neg hi]
      cases initOracle (serverUrlOf spec) with
      | error e => exact h
      | ok r => exact recordSpec_toolMap_inv _ _ _ _ _ _ h
  | none =>
    dsimp only
    cases initOracle (serverUrlOf spec) with
    | error e => exact h
    | ok r => exact recordSpec_toolMap_inv _ _ _ _ _ _ h

theorem discoverAll_toolMap_eq (hostnameOf : String → String)
    (initOracle : String → Except String InitResult)
    (sessions : List (String × MCPSession)) (specs : List MCPToolSpec) :
    (discoverAll hostnameOf initOracle sessions specs).toolMap =
      (discoverAll hostnameOf initOracle sessions specs).contributions.foldl
        (fun m p => mapSet m p.1 p.2) [] := by
  rw [discoverAll]
  have haux : ∀ (sps : List MCPToolSpec) (st : DiscoverState),
      st.toolMap = st.contributions.foldl (fun m p => mapSet m p.1 p.2) [] →
      (sps.foldl (discoverSpec hostnameOf initOracle) st).toolMap =
        (sps.foldl (discoverSpec hostnameOf initOracle) st).contributions.foldl
          (fun m p => mapSet m p.1 p.2) [] := by
    intro sps
    induction sps with
    | nil => intro st h; exact h
    | cons sp sps ih =>
      intro st h
      exact ih _ (discoverSpec_toolMap_inv hostnameOf initOracle st sp h)
  exact haux specs _ rfl

/-- C2 (amended).  The synthetic function name is the deterministic
function of `(hostname, original_name)` given by
`mcp_tool_<dashed-hostname>_<original-name>` (first conjunct), and
PROVIDED the synthetic names contributed across the request's discovery
phase are pairwise distinct, looking a contributed name up in the
reverse map yields exactly the `(server_url, original_name,
authorization)` recorded for it (second conjunct).  The distinctness
hypothesis is forced: the dashed hostname is not injective, and a later
colliding `toolMap.set` overwrites an earlier entry — see the
counterexample. -/
theorem discoverAll_name_roundTrip (hostnameOf : String → String)
    (initOracle : String → Except String InitResult)
    (sessions : List (String × MCPSession)) (specs : List MCPToolSpec)
    (hnodup : ((discoverAll hostnameOf initOracle sessions specs).contributions.map
      Prod.fst).Nodup) :
    (∀ h n, functionName h n = "mcp_tool_" ++ dashHostname h ++ "_" ++ n) ∧
    ∀ nm e, (nm, e) ∈ (discoverAll hostnameOf initOracle sessions specs).contributions →
      mapGet (discoverAll hostnameOf initOracle sessions specs).toolMap nm = some e := by
  refine ⟨fun _ _ => rfl, fun nm e hmem => ?_⟩
  rw [discoverAll_toolMap_eq]
  exact mapGet_foldl_mapSet_nodup _ [] nm e hnodup hmem

/-- Witness for C2: one server, one tool; the synthetic name resolves
back to the exact `(server_url, original_name, authorization)`. -/
theorem discoverAll_name_roundTrip_witness :
    mapGet (discoverAll (fun _ => "example.com")
        (fun _ => Except.ok ⟨none, [⟨"srch", none, none⟩]⟩) []
        [⟨some "https://example.com", some "tok", none, none⟩]).toolMap
        "mcp_tool_example-com_srch" =
      some ⟨"https://example.com", "srch", some "tok"⟩ :=
  (discoverAll_name_roundTrip (fun _ => "example.com")
    (fun _ => Except.ok ⟨none, [⟨"srch", none, none⟩]⟩) []
    [⟨some "https://example.com", some "tok", none, none⟩] (by decide)).2
    "mcp_tool_example-com_srch" ⟨"https://example.com", "srch", some "tok"⟩ (by decide)

/-- Counterexample to C2 as stated: the servers `https://a-b.com`
(hostname `a-b.com`) and `https://a.b.com` (hostname `a.b.com`) both
produce the dashed hostname `a-b-com`, so a tool `t` on each collides
on the synthetic name `mcp_tool_a-b-com_t`; the second `toolMap.set`
overwrites the first, and the lookup for the first server's tool
resolves to the SECOND server's `(server_url, original_name,
authorization)`, not the one that contributed it. -/
theorem discoverAll_collision_overwrite :
    ("mcp_tool_a-b-com_t",
      ({ serverUrl := "https://a-b.com", originalName := "t",
         authorization := some "auth1" } : ToolMapEntry)) ∈
      (discoverAll (fun u => if u == "https://a-b.com" then "a-b.com" else "a.b.com")
        (fun _ => Except.ok ⟨none, [⟨"t", none, none⟩]⟩) []
        [⟨some "https://a-b.com", some "auth1", none, none⟩,
         ⟨some "https://a.b.com", some "auth2", none, none⟩]).contributions ∧
    mapGet (discoverAll (fun u => if u == "https://a-b.com" then "a-b.com" else "a.b.com")
        (fun _ => Except.ok ⟨none, [⟨"t", none, none⟩]⟩) []
        [⟨some "https://a-b.com", some "auth1", none, none⟩,
         ⟨some "https://a.b.com", some "auth2", none, none⟩]).toolMap
        "mcp_tool_a-b-com_t" =
      some ⟨"https://a.b.com", "t", some "auth2"⟩ ∧
    ("https://a-b.com" : String) ≠ "https://a.b.com" := by
  decide

/-! ## C6: session expiry (404) during tools/call -/

/-- C6.  When a `tools/call` response has status 404 and the session's
id is known, the cached session entry for that `server_url` is deleted
from the session map (its lookup afterwards is `none`), a `tool`
message with content `**Error**: Session expired, please retry the
request` and the call's `tool_call_id` is appended to the working
conversation, the same error text (wrapped in blank lines) is emitted
to the caller, and dispatch continues with the subsequent tool calls of
the round (`dispatchSeq` processes the rest against the updated session
map) rather than aborting. -/
theorem dispatchOne_session_expired (initOracle : Except String InitResult)
    (resp : ToolResponseMeta) (parsed : Except String RpcResult)
    (formatResult : RpcResult → String) (sessions : List (String × MCPSession))
    (toolInfo : ToolMapEntry) (hostname tcId : String) (s : MCPSession)
    (hs : mapGet sessions toolInfo.serverUrl = some s)
    (hinit : s.initialized = true)
    (hsid : sessionIdKnown s = true)
    (h404 : resp.status = 404) :
    dispatchOne initOracle resp parsed formatResult sessions toolInfo hostname tcId =
      { sessions := mapDelete sessions toolInfo.serverUrl
        toolMessage := Msg.tool tcId "**Error**: Session expired, please retry the request"
        emittedContent := "\n\n**Error**: Session expired, please retry the request\n\n" } ∧
    mapGet (mapDelete sessions toolInfo.serverUrl) toolInfo.serverUrl = none ∧
    ∀ cs : List CallEnv, dispatchSeq formatResult
        (⟨toolInfo, hostname, tcId, initOracle, resp, parsed⟩ :: cs) sessions =
      Msg.tool tcId "**Error**: Session expired, please retry the request" ::
        dispatchSeq formatResult cs (mapDelete sessions toolInfo.serverUrl) := by
  have hens : ensureSession initOracle sessions toolInfo.serverUrl =
      Except.ok (sessions, s) := by
    simp [ensureSession, hs, hinit]
  have hcond : (resp.status == 404 && sessionIdKnown s) = true := by
    simp [h404, hsid]
  have hbody : toolCallBody sessions toolInfo.serverUrl hostname toolInfo.originalName s resp
      parsed formatResult =
      (mapDelete sessions toolInfo.serverUrl,
        CallOutcome.failure "Session expired, please retry the request") := by
    rw [toolCallBody.eq_def, if_pos hcond]
  have hd1 : dispatchOne initOracle resp parsed formatResult sessions toolInfo hostname tcId =
      { sessions := mapDelete sessions toolInfo.serverUrl
        toolMessage := Msg.tool tcId "**Error**: Session expired, please retry the request"
        emittedContent := "\n\n**Error**: Session expired, please retry the request\n\n" } := by
    simp [dispatchOne, hens, hbody]
  refine ⟨hd1, mapGet_mapDelete_same sessions toolInfo.serverUrl, ?_⟩
  intro cs
  simp [dispatchSeq, hd1]

/-- Witness for C6: a concrete 404 on a cached session with id `sid`. -/
theorem dispatchOne_session_expired_witness :
    dispatchOne (Except.error "unused") ⟨404, ""⟩ (Except.ok ⟨none⟩) (fun _ => "")
        [("https://mcp.example", ⟨some "sid", true, []⟩)]
        ⟨"https://mcp.example", "srch", some "tok"⟩ "mcp.example" "t9" =
      { sessions := mapDelete [("https://mcp.example", ⟨some "sid", true, []⟩)]
          "https://mcp.example"
        toolMessage := Msg.tool "t9" "**Error**: Session expired, please retry the request"
        emittedContent := "\n\n**Error**: Session expired, please retry the request\n\n" } :=
  (dispatchOne_session_expired (Except.error "unused") ⟨404, ""⟩ (Except.ok ⟨none⟩)
    (fun _ => "") [("https://mcp.example", ⟨some "sid", true, []⟩)]
    ⟨"https://mcp.example", "srch", some "tok"⟩ "mcp.example" "t9"
    ⟨some "sid", true, []⟩ (by decide) rfl (by decide) rfl).1

/-! ## C10: cross-request session reuse -/

theorem mapGet_foldl_mapSet_proj {K V W : Type} [BEq K] [LawfulBEq K]
    (pairs : List (K × W)) (f : W → V) (m : List (K × V)) (k : K) (v : V)
    (h : mapGet (pairs.foldl (fun acc p => mapSet acc p.1 (f p.2)) m) k = some v) :
    (∃ p ∈ pairs, p.1 = k ∧ f p.2 = v) ∨ mapGet m k = some v := by
  induction pairs generalizing m with
  | nil => exact Or.inr h
  | cons p ps ih =>
    rw [List.foldl_cons] at h
    rcases ih _ h with ⟨q, hq, hqk, hqv⟩ | hget
    · exact Or.inl ⟨q, List.mem_cons_of_mem p hq, hqk, hqv⟩
    · cases hp : p.1 == k with
      | true =>
        have hp' : p.1 = k := by simpa using hp
        rw [hp', mapGet_mapSet_same] at hget
        obtain rfl : f p.2 = v := by injection hget
        exact Or.inl ⟨p, List.mem_cons_self p ps, hp', rfl⟩
      | false =>
        have hp' : k ≠ p.1 := by
          intro he; rw [he] at hp; simp at hp
        rw [mapGet_mapSet_other _ _ _ _ hp'] at hget
        exact Or.inr hget

/-- C10.  Two requests in the same process referencing the same
`server_url`: the first leaves an initialized session in the
module-level `mcpSessions` map; the second — with a DIFFERENT
authorization — performs no initialize/tools-list handshake at all
(`handshakes = []`, its oracle is never consulted), leaves the session
map untouched, and advertises exactly the transformed tools derived
from the tool list the FIRST request stored.  Every reverse-map entry
the second request builds carries the second request's own
authorization and the shared `server_url`; the `tools/call` dispatch
headers are built from that entry (`executeHeaders`), so the
`Authorization` header sent on `tools/call` is the second request's
value. -/
theorem crossRequest_session_reuse (url : String) (auth1 auth2 : Option String)
    (hostnameOf : String → String) (oracle1 oracle2 : String → Except String InitResult)
    (r : InitResult) (h1 : oracle1 url = Except.ok r) :
    (discoverAll hostnameOf oracle2
        (discoverAll hostnameOf oracle1 [] [⟨some url, auth1, none, none⟩]).sessions
        [⟨some url, auth2, none, none⟩]).handshakes = [] ∧
    (discoverAll hostnameOf oracle2
        (discoverAll hostnameOf oracle1 [] [⟨some url, auth1, none, none⟩]).sessions
        [⟨some url, auth2, none, none⟩]).sessions =
      (discoverAll hostnameOf oracle1 [] [⟨some url, auth1, none, none⟩]).sessions ∧
    (discoverAll hostnameOf oracle2
        (discoverAll hostnameOf oracle1 [] [⟨some url, auth1, none, none⟩]).sessions
        [⟨some url, auth2, none, none⟩]).transformedTools =
      (specToolPairs (hostnameOf url) ⟨some url, auth2, none, none⟩ r.tools).map
        (fun p => p.2.2) ∧
    (∀ nm e, mapGet (discoverAll hostnameOf oracle2
        (discoverAll hostnameOf oracle1 [] [⟨some url, auth1, none, none⟩]).sessions
        [⟨some url, auth2, none, none⟩]).toolMap nm = some e →
      e.authorization = auth2 ∧ e.serverUrl = url) ∧
    (∀ a sid, auth2 = some a → a ≠ "" →
      mapGet (executeHeaders auth2 sid) "Authorization" = some a) := by
  have hst1 : (discoverAll hostnameOf oracle1 [] [⟨some url, auth1, none, none⟩]).sessions =
      [(url, ⟨normalizeSessionId r.sessionId, true, r.tools⟩)] := by
    simp [discoverAll, discoverSpec, serverUrlOf, mapGet, h1, recordSpec, mapSet]
  rw [hst1]
  have hget : mapGet [(url, (⟨normalizeSessionId r.sessionId, true, r.tools⟩ : MCPSession))]
      url = some ⟨normalizeSessionId r.sessionId, true, r.tools⟩ := by
    simp [mapGet]
  have hd2 : discoverAll hostnameOf oracle2
      [(url, (⟨normalizeSessionId r.sessionId, true, r.tools⟩ : MCPSession))]
      [⟨some url, auth2, none, none⟩] =
      recordSpec hostnameOf
        { sessions := [(url, ⟨normalizeSessionId r.sessionId, true, r.tools⟩)], toolMap := [],
          contributions := [], transformedTools := [], handshakes := [] }
        ⟨some url, auth2, none, none⟩
        [(url, ⟨normalizeSessionId r.sessionId, true, r.tools⟩)] []
        ⟨normalizeSessionId r.sessionId, true, r.tools⟩ := by
    rw [discoverAll, List.foldl_cons, List.foldl_nil, discoverSpec]
    simp only [serverUrlOf, Option.getD]
    rw [hget]
    rfl
  rw [hd2]
  refine ⟨rfl, rfl, by simp [recordSpec, serverUrlOf], ?_, ?_⟩
  · intro nm e hmem
    simp only [recordSpec] at hmem
    rcases mapGet_foldl_mapSet_proj _ _ _ _ _ hmem with ⟨p, hp, hpk, hpv⟩ | hnone
    · rcases List.mem_map.mp hp with ⟨t, htmem, hteq⟩
      rw [← hpv, ← hteq]
      exact ⟨rfl, rfl⟩
    · simp [mapGet] at hnone
  · intro a sid ha hne
    subst ha
    have hb : (a != "") = true := by simpa using hne
    simp [executeHeaders, hb, mapGet]

/-- Witness for C10: the second request supplies authorization `B` (the
first used `A`) and an oracle that would FAIL if consulted; no
handshake happens and the first request's tool list is advertised. -/
theorem crossRequest_session_reuse_witness :
    (discoverAll (fun _ => "example.com") (fun _ => Except.error "boom")
        (discoverAll (fun _ => "example.com")
          (fun _ => Except.ok ⟨some "sid1", [⟨"srch", none, none⟩]⟩) []
          [⟨some "https://example.com", some "A", none, none⟩]).sessions
        [⟨some "https://example.com", some "B", none, none⟩]).handshakes = [] :=
  (crossRequest_session_reuse "https://example.com" (some "A") (some "B")
    (fun _ => "example.com")
    (fun _ => Except.ok ⟨some "sid1", [⟨"srch", none, none⟩]⟩)
    (fun _ => Except.error "boom")
    ⟨some "sid1", [⟨"srch", none, none⟩]⟩ rfl).1

end MCPCompletions
